import Mathlib

/-!
Verification of the langgraph store (base interface and async Postgres
backend) against its specification.

The development shallowly embeds the Python sources:
  * `libs/checkpoint/langgraph/store/base/__init__.py` — `Item`,
    `SearchItem`, the operation variants, `BaseStore`'s facade helpers and
    `_validate_namespace`;
  * `libs/checkpoint-postgres/langgraph/store/postgres/aio.py` —
    `AsyncPostgresStore`: `__init__`, `from_conn_string`, `setup`,
    `abatch`/`_execute_batch` and the per-kind batch handlers.

Pure control flow is translated function by function.  The SQL planner and
`_group_ops` live in `langgraph/store/postgres/base.py`, which is not part
of the sources at hand; those pieces are modelled from the specification
text and marked `Modelled from the spec:` in their doc comments.
-/

deriving instance DecidableEq for Except

namespace LGStore

/-- A namespace: the tuple of label strings identifying a collection. -/
abbrev Nspace := List String

/-- A Python value that may occur as a namespace tuple element: either a
string or a value of some other runtime type (carrying its type name, as
used in the error message of `_validate_namespace`). -/
inductive PyLabel where
  | str (s : String)
  | nonStr (typeName : String)
deriving DecidableEq, Repr

/-- Whether a `PyLabel` is a string (Python `isinstance(label, str)`). -/
def PyLabel.isStr : PyLabel → Bool
  | .str _ => true
  | .nonStr _ => false

/-- Python `==` between a tuple element and a string literal: a non-string
compares unequal. -/
def PyLabel.eqStr : PyLabel → String → Bool
  | .str s, t => s == t
  | .nonStr _, _ => false

/-- The per-label loop of `_validate_namespace` (base/__init__.py lines
619-632): for each label, check `isinstance(label, str)`, then
`"." in label`, then (elif) emptiness.  The error value carries the message
of the `InvalidNamespaceError` raised. -/
def checkLabels : List PyLabel → Except String Unit
  | [] => .ok ()
  | l :: rest =>
    match l with
    | .nonStr t =>
        .error ("Invalid namespace label found. Namespace labels must be strings, but got " ++ t ++ ".")
    | .str s =>
        if s.data.contains '.' then
          .error "Invalid namespace label found. Namespace labels cannot contain periods ('.')."
        else if s = "" then
          .error "Namespace labels cannot be empty strings."
        else checkLabels rest

/-- `_validate_namespace` (base/__init__.py lines 616-636): reject an empty
tuple, then run the per-label loop, then reject a first label equal to the
reserved root `"langgraph"`. -/
def validateNamespace (ns : List PyLabel) : Except String Unit :=
  if ns.isEmpty then .error "Namespace cannot be empty."
  else
    match checkLabels ns with
    | .error e => .error e
    | .ok () =>
        match ns.head? with
        | some l =>
            if l.eqStr "langgraph" then
              .error "Root label for namespace cannot be \x22langgraph\x22."
            else .ok ()
        | none => .ok ()

/-- A label passes the loop iff it is a string that is non-empty and free of
periods. -/
def labelOk : PyLabel → Prop
  | .str s => ¬ s.data.contains '.' ∧ s ≠ ""
  | .nonStr _ => False

instance (l : PyLabel) : Decidable (labelOk l) := by
  cases l with
  | str s => exact inferInstanceAs (Decidable (¬ s.data.contains '.' ∧ s ≠ ""))
  | nonStr t => exact inferInstanceAs (Decidable False)

lemma checkLabels_ok (ns : List PyLabel) :
    checkLabels ns = .ok () ↔ ∀ l ∈ ns, labelOk l := by
  induction ns with
  | nil => simp [checkLabels]
  | cons l rest ih =>
    cases l with
    | nonStr t =>
        simp [checkLabels, labelOk]
    | str s =>
        by_cases hdot : '.' ∈ s.data
        · simp [checkLabels, hdot, labelOk]
        · by_cases hemp : s = ""
          · subst hemp
            simp [checkLabels, hdot, labelOk]
          · simp [checkLabels, hdot, hemp, labelOk, ih]

lemma eqStr_iff (l : PyLabel) (s : String) : l.eqStr s = true ↔ l = .str s := by
  cases l with
  | str t => simp [PyLabel.eqStr]
  | nonStr t => simp [PyLabel.eqStr]

lemma validateNamespace_ok (ns : List PyLabel) :
    validateNamespace ns = .ok () ↔
      (ns ≠ [] ∧ (∀ l ∈ ns, labelOk l) ∧ ns.head? ≠ some (.str "langgraph")) := by
  cases ns with
  | nil => simp [validateNamespace]
  | cons a rest =>
    rcases h : checkLabels (a :: rest) with e | u
    · have hnall : ¬ ∀ l ∈ a :: rest, labelOk l := by
        rw [← checkLabels_ok, h]
        simp
      constructor
      · intro hok
        exfalso
        simp [validateNamespace, h] at hok
      · rintro ⟨hne, hlab, hhd⟩
        exact absurd hlab hnall
    · cases u
      have hall : ∀ l ∈ a :: rest, labelOk l := (checkLabels_ok _).1 h
      have h1 : ∀ l ∈ rest, labelOk l := fun l hl => hall l (List.mem_cons_of_mem _ hl)
      have h2 : labelOk a := hall a (List.mem_cons_self _ _)
      by_cases hg : a.eqStr "langgraph" = true
      · have ha : a = .str "langgraph" := (eqStr_iff a _).1 hg
        subst ha
        simp [validateNamespace, h, PyLabel.eqStr]
      · have ha : a ≠ .str "langgraph" := fun hc => hg ((eqStr_iff a _).2 hc)
        simp [validateNamespace, h, hg, h2, ha]
        exact h1

lemma allLabelOk_iff (ns : List PyLabel) :
    (∀ l ∈ ns, labelOk l) ↔
      ¬ ((∃ l ∈ ns, l.isStr = false) ∨ PyLabel.str "" ∈ ns ∨
          ∃ s, PyLabel.str s ∈ ns ∧ s.data.contains '.' = true) := by
  constructor
  · rintro hall (⟨l, hl, hns⟩ | hemp | ⟨s, hs, hdot⟩)
    · cases l with
      | str t => simp [PyLabel.isStr] at hns
      | nonStr t => exact hall _ hl
    · exact (hall _ hemp).2 rfl
    · exact (hall _ hs).1 hdot
  · intro hno l hl
    cases l with
    | str t =>
        refine ⟨fun hdot => hno (Or.inr (Or.inr ⟨t, hl, hdot⟩)), fun hemp => ?_⟩
        exact hno (Or.inr (Or.inl (hemp ▸ hl)))
    | nonStr t => exact hno (Or.inl ⟨.nonStr t, hl, rfl⟩)

/-- A stored item (base/__init__.py, class `Item`): the value (a JSON dict,
kept abstract as `V`), key, namespace and the two timestamps (type `DT`,
Python `datetime`).  Namespace labels are strings here since the class is
used with `tuple[str, ...]` namespaces. -/
structure Item (V DT : Type) where
  value : V
  key : String
  nspace : Nspace
  createdAt : DT
  updatedAt : DT
deriving DecidableEq, Repr

/-- An `Item.__init__` timestamp argument: a `datetime`, or an ISO string to
be deserialized. -/
inductive TsArg (DT : Type) where
  | dt (t : DT)
  | iso (s : String)
deriving DecidableEq, Repr

/-- Python errors surfaced by the embedded code. -/
inductive PyErr where
  | nameError (n : String)
  | typeError (msg : String)
  | valueError (msg : String)
deriving DecidableEq, Repr

variable {V DT : Type}

/-- `datetime.fromisoformat` applied to an `Item.__init__` argument: parses a
string (via `fromiso`, the embedding of the ISO-8601 parser), and raises
`TypeError` on a non-string (a `datetime`). -/
def pyFromIsoArg (fromiso : String → DT) : TsArg DT → Except PyErr DT
  | .iso s => .ok (fromiso s)
  | .dt _ => .error (.typeError "fromisoformat: argument must be str")

/-- `Item.__init__` (base/__init__.py lines 42-65), timestamp handling only:
`created_at` is parsed from its own argument when that argument is a string,
but `updated_at` — as the source is written — is initialized from
`datetime.fromisoformat(cast(str, created_at))` whenever the `updated_at`
argument is a string (line 62 reads `created_at`, not `updated_at`). -/
def itemInit (fromiso : String → DT) (value : V) (key : String) (ns : Nspace)
    (created_at updated_at : TsArg DT) : Except PyErr (Item V DT) := do
  let ca : DT :=
    match created_at with
    | .iso s => fromiso s
    | .dt t => t
  let ua : DT ←
    match updated_at with
    | .iso _ => pyFromIsoArg fromiso created_at
    | .dt t => .ok t
  .ok { value := value, key := key, nspace := ns, createdAt := ca, updatedAt := ua }

/-- The other operand of `Item.__eq__`: another `Item`, or any non-`Item`
object (for which `isinstance(other, Item)` fails). -/
inductive PyCompared (V DT : Type) where
  | item (i : Item V DT)
  | notAnItem
deriving DecidableEq, Repr

/-- `Item.__eq__` (base/__init__.py lines 67-76): `False` on a non-`Item`,
else structural equality of all five fields. -/
def Item.pyEq [DecidableEq V] [DecidableEq DT] (a : Item V DT) :
    PyCompared V DT → Bool
  | .item b =>
      a.value == b.value && a.key == b.key && a.nspace == b.nspace &&
        a.createdAt == b.createdAt && a.updatedAt == b.updatedAt
  | .notAnItem => false

/-- `Item.__hash__` (base/__init__.py lines 78-79): `hash((namespace, key))`,
with Python's tuple hash kept abstract as `hash2`. -/
def Item.pyHash (hash2 : Nspace × String → Int) (a : Item V DT) : Int :=
  hash2 (a.nspace, a.key)

/-- C5 (code bug, base/__init__.py line 62): with the ISO parser embedded as
the identity on canonical strings, constructing an `Item` from two distinct
ISO timestamp strings yields `updated_at` parsed from the `created_at`
argument — not from the `updated_at` argument as the specification requires;
and a `datetime` `created_at` with a string `updated_at` even raises
`TypeError`, because `fromisoformat` is applied to the `created_at` argument. -/
theorem itemInit_reads_created_at_twice :
    (@itemInit Nat String id 0 "k" ["users"]
        (.iso "2024-01-01T00:00:00") (.iso "2024-02-02T00:00:00") =
      .ok { value := 0, key := "k", nspace := ["users"],
            createdAt := "2024-01-01T00:00:00",
            updatedAt := "2024-01-01T00:00:00" }) ∧
    ("2024-01-01T00:00:00" : String) ≠ "2024-02-02T00:00:00" ∧
    (@itemInit Nat String id 0 "k" ["users"]
        (.dt "2024-01-01T00:00:00") (.iso "2024-02-02T00:00:00") =
      .error (.typeError "fromisoformat: argument must be str")) := by
  refine ⟨rfl, ?_, rfl⟩
  decide

/-- C10: `Item.__eq__` is structural over all five fields (and `False`
against a non-`Item`), while `__hash__` covers only `(namespace, key)`;
hence equal items hash equally, and two items agreeing on the identity pair
but differing in value collide in hash without being equal. -/
theorem item_eq_structural_hash_identity {V DT : Type}
    [DecidableEq V] [DecidableEq DT]
    (hash2 : Nspace × String → Int) (a b : Item V DT) :
    (a.pyEq (.item b) = true ↔
        (a.value = b.value ∧ a.key = b.key ∧ a.nspace = b.nspace ∧
          a.createdAt = b.createdAt ∧ a.updatedAt = b.updatedAt)) ∧
    a.pyEq .notAnItem = false ∧
    a.pyHash hash2 = hash2 (a.nspace, a.key) ∧
    (a.pyEq (.item b) = true → a.pyHash hash2 = b.pyHash hash2) ∧
    (a.nspace = b.nspace ∧ a.key = b.key ∧ a.value ≠ b.value →
      a.pyHash hash2 = b.pyHash hash2 ∧ a.pyEq (.item b) = false) := by
  have hiff : a.pyEq (.item b) = true ↔
      (a.value = b.value ∧ a.key = b.key ∧ a.nspace = b.nspace ∧
        a.createdAt = b.createdAt ∧ a.updatedAt = b.updatedAt) := by
    simp [Item.pyEq, and_assoc]
  refine ⟨hiff, rfl, rfl, ?_, ?_⟩
  · intro h
    obtain ⟨_, hk, hn, _, _⟩ := hiff.1 h
    simp [Item.pyHash, hk, hn]
  · rintro ⟨hn, hk, hv⟩
    refine ⟨by simp [Item.pyHash, hn, hk], ?_⟩
    exact Bool.eq_false_iff.mpr (fun htrue => hv (hiff.1 htrue).1)

/-- A JSON dict with string keys; leaf values are kept abstract as `L`. -/
abbrev PyDict (L : Type) := List (String × L)

/-- `GetOp` (base/__init__.py lines 130-136). -/
structure GetOp where
  nspace : Nspace
  key : String
deriving DecidableEq, Repr

/-- `SearchOp` (base/__init__.py lines 139-151), with the Python defaults. -/
structure SearchOp (L : Type) where
  namespacePrefix : Nspace
  filter : Option (PyDict L) := none
  limit : Nat := 10
  offset : Nat := 0
  query : Option String := none
deriving DecidableEq, Repr

/-- The `index` field of a `PutOp`: `None` (store default), `False`
(indexing disabled), or an explicit list of JSON paths. -/
inductive IndexArg where
  | unset
  | disabled
  | paths (ps : List String)
deriving DecidableEq, Repr

/-- `PutOp` (base/__init__.py lines 154-229); `value = none` marks deletion. -/
structure PutOp (L : Type) where
  nspace : Nspace
  key : String
  value : Option (PyDict L)
  index : IndexArg := .unset
deriving DecidableEq, Repr

/-- `MatchCondition` (base/__init__.py lines 237-241); `matchType` is the
Python literal `"prefix"` or `"suffix"`, and a `"*"` path label is a
wildcard. -/
structure MatchCondition where
  matchType : String
  path : List String
deriving DecidableEq, Repr

/-- `ListNamespacesOp` (base/__init__.py lines 244-257). -/
structure ListNamespacesOp where
  matchConditions : Option (List MatchCondition) := none
  maxDepth : Option Nat := none
  limit : Nat := 100
  offset : Nat := 0
deriving DecidableEq, Repr

/-- The tagged operation union `Op` (base/__init__.py line 260). -/
inductive Op (L : Type) where
  | get (op : GetOp)
  | search (op : SearchOp L)
  | put (op : PutOp L)
  | listNamespaces (op : ListNamespacesOp)
deriving DecidableEq, Repr

/-- `SearchItem` (base/__init__.py lines 91-127): an `Item` with an optional
relevance score.  Timestamps in the store model are logical times (`Nat`);
the score's numeric type is abstracted to `Int`. -/
structure SearchItem (L : Type) extends Item (PyDict L) Nat where
  score : Option Int := none
deriving DecidableEq, Repr

/-- The result union `Result` (base/__init__.py line 261):
`Item | list[SearchItem] | list[namespace] | None`. -/
inductive BatchResult (L : Type) where
  | none
  | item (it : Item (PyDict L) Nat)
  | searchItems (its : List (SearchItem L))
  | namespaces (nss : List Nspace)
deriving DecidableEq, Repr

/-- What one facade helper did: the op lists passed to the `batch` oracle
(in order), and the returned value or the raised error (the message of an
`InvalidNamespaceError`). -/
structure FacadeOut (L α : Type) where
  calls : List (List (Op L))
  ret : Except String α

variable {L : Type}

/-- `BaseStore.get` (base/__init__.py lines 327-337):
`return self.batch([GetOp(namespace, key)])[0]`.  The oracle `batch` stands
for the abstract `batch`/`abatch` of the concrete store; Python's `[0]` is
`List.head?`.  `aget` (lines 469-479) has the same body over `abatch`. -/
def storeGet (batch : List (Op L) → List (BatchResult L))
    (ns : Nspace) (key : String) : FacadeOut L (Option (BatchResult L)) :=
  { calls := [[Op.get ⟨ns, key⟩]],
    ret := .ok (batch [Op.get ⟨ns, key⟩]).head? }

/-- `BaseStore.search` (base/__init__.py lines 339-361): a singleton batch of
`SearchOp(namespace_prefix, filter, limit, offset, query)`.  `asearch`
(lines 481-507) has the same body over `abatch`. -/
def storeSearch (batch : List (Op L) → List (BatchResult L))
    (nsPre : Nspace) (filter : Option (PyDict L)) (limit offset : Nat)
    (query : Option String) : FacadeOut L (Option (BatchResult L)) :=
  { calls := [[Op.search ⟨nsPre, filter, limit, offset, query⟩]],
    ret := .ok (batch [Op.search ⟨nsPre, filter, limit, offset, query⟩]).head? }

/-- `BaseStore.put` (base/__init__.py lines 363-407): validates the namespace
first — an `InvalidNamespaceError` propagates before any batch call — then
runs the singleton batch `[PutOp(namespace, key, value, index=index)]`.
`aput` (lines 509-553) has the same body over `abatch`. -/
def storePut (batch : List (Op L) → List (BatchResult L))
    (ns : Nspace) (key : String) (value : PyDict L) (index : IndexArg) :
    FacadeOut L Unit :=
  match validateNamespace (ns.map .str) with
  | .error e => { calls := [], ret := .error e }
  | .ok () =>
      let _ := batch [Op.put ⟨ns, key, some value, index⟩]
      { calls := [[Op.put ⟨ns, key, some value, index⟩]], ret := .ok () }

/-- `BaseStore.delete` (base/__init__.py lines 409-416):
`self.batch([PutOp(namespace, key, None)])` — no namespace validation.
`adelete` (lines 555-562) has the same body over `abatch`. -/
def storeDelete (batch : List (Op L) → List (BatchResult L))
    (ns : Nspace) (key : String) : FacadeOut L Unit :=
  let _ := batch [Op.put ⟨ns, key, none, .unset⟩]
  { calls := [[Op.put ⟨ns, key, none, .unset⟩]], ret := .ok () }

/-- The match-condition list `BaseStore.list_namespaces` builds
(base/__init__.py lines 455-459): `if prefix:` / `if suffix:` — Python
truthiness, so `None` and the empty tuple both contribute nothing. -/
def pathConds (pre suf : Option (List String)) : List MatchCondition :=
  (match pre with
   | some p => if p.isEmpty then [] else [⟨"prefix", p⟩]
   | none => []) ++
  (match suf with
   | some p => if p.isEmpty then [] else [⟨"suffix", p⟩]
   | none => [])

/-- `BaseStore.list_namespaces` (base/__init__.py lines 418-467): builds one
`ListNamespacesOp` from the keyword arguments and runs it as a singleton
batch.  `alist_namespaces` (lines 564-613) has the same body over `abatch`. -/
def storeListNamespaces (batch : List (Op L) → List (BatchResult L))
    (pre suf : Option (List String)) (maxDepth : Option Nat)
    (limit offset : Nat) : FacadeOut L (Option (BatchResult L)) :=
  let op : ListNamespacesOp :=
    { matchConditions := some (pathConds pre suf), maxDepth := maxDepth,
      limit := limit, offset := offset }
  { calls := [[Op.listNamespaces op]],
    ret := .ok (batch [Op.listNamespaces op]).head? }

/-- C8: each facade helper is the corresponding singleton batch — `get`,
`search` and `list_namespaces` return slot 0 of a one-element batch, and
`put` validates the namespace first: on an invalid namespace it raises
`InvalidNamespaceError` with no batch call made, and otherwise it runs the
singleton batch `[PutOp(ns, key, value, index)]`.  The oracle `batch`
abstracts both `batch` and `abatch`, so the sync and async facades satisfy
the same equations. -/
theorem facade_singleton_batch (batch : List (Op L) → List (BatchResult L))
    (ns : Nspace) (key : String) (value : PyDict L) (index : IndexArg)
    (filter : Option (PyDict L)) (limit offset : Nat) (query : Option String)
    (pre suf : Option (List String)) (maxDepth : Option Nat) :
    (storeGet batch ns key =
      { calls := [[Op.get ⟨ns, key⟩]],
        ret := .ok (batch [Op.get ⟨ns, key⟩]).head? }) ∧
    (storeSearch batch ns filter limit offset query =
      { calls := [[Op.search ⟨ns, filter, limit, offset, query⟩]],
        ret := .ok (batch [Op.search ⟨ns, filter, limit, offset, query⟩]).head? }) ∧
    (storeListNamespaces batch pre suf maxDepth limit offset =
      { calls := [[Op.listNamespaces
          ⟨some (pathConds pre suf), maxDepth, limit, offset⟩]],
        ret := .ok (batch [Op.listNamespaces
          ⟨some (pathConds pre suf), maxDepth, limit, offset⟩]).head? }) ∧
    (validateNamespace (ns.map .str) = .ok () →
      storePut batch ns key value index =
        { calls := [[Op.put ⟨ns, key, some value, index⟩]], ret := .ok () }) ∧
    (∀ e, validateNamespace (ns.map .str) = .error e →
      storePut batch ns key value index = { calls := [], ret := .error e }) := by
  refine ⟨rfl, rfl, rfl, fun hok => ?_, fun e herr => ?_⟩
  · simp [storePut, hok]
  · simp [storePut, herr]

/-- C9: `delete`/`adelete` enqueue `PutOp(namespace, key, None)` with no
namespace validation — for every namespace tuple, including ones `put`
would reject (empty, a label containing `.`, an empty label, or the
reserved root `langgraph`), the facade raises nothing and makes exactly the
singleton batch call. -/
theorem facade_delete_skips_validation
    (batch : List (Op L) → List (BatchResult L)) (ns : Nspace) (key : String) :
    (storeDelete batch ns key =
      { calls := [[Op.put ⟨ns, key, none, .unset⟩]], ret := .ok () }) ∧
    validateNamespace (([] : Nspace).map .str) ≠ .ok () ∧
    validateNamespace ((["a.b"] : Nspace).map .str) ≠ .ok () ∧
    validateNamespace (([""] : Nspace).map .str) ≠ .ok () ∧
    validateNamespace ((["langgraph", "x"] : Nspace).map .str) ≠ .ok () ∧
    (storeDelete batch [] key).ret = .ok () ∧
    (storeDelete batch ["a.b"] key).ret = .ok () ∧
    (storeDelete batch [""] key).ret = .ok () ∧
    (storeDelete batch ["langgraph", "x"] key).ret = .ok () := by
  refine ⟨rfl, ?_, ?_, ?_, ?_, rfl, rfl, rfl, rfl⟩ <;> decide

/-- C4: `_validate_namespace(ns)` raises `InvalidNamespaceError` exactly when
the tuple is empty, some label is not a string, some label is the empty
string, some label contains a period, or the first label is the reserved
token `"langgraph"`; on every other tuple it returns normally. -/
theorem validateNamespace_raises_iff (ns : List PyLabel) :
    ((∃ e, validateNamespace ns = .error e) ↔
      (ns = [] ∨ (∃ l ∈ ns, l.isStr = false) ∨ PyLabel.str "" ∈ ns ∨
        (∃ s, PyLabel.str s ∈ ns ∧ s.data.contains '.' = true) ∨
        ns.head? = some (.str "langgraph"))) ∧
    ((validateNamespace ns = .ok ()) ↔
      ¬ (ns = [] ∨ (∃ l ∈ ns, l.isStr = false) ∨ PyLabel.str "" ∈ ns ∨
        (∃ s, PyLabel.str s ∈ ns ∧ s.data.contains '.' = true) ∨
        ns.head? = some (.str "langgraph"))) := by
  have hok : (validateNamespace ns = .ok ()) ↔
      ¬ (ns = [] ∨ (∃ l ∈ ns, l.isStr = false) ∨ PyLabel.str "" ∈ ns ∨
        (∃ s, PyLabel.str s ∈ ns ∧ s.data.contains '.' = true) ∨
        ns.head? = some (.str "langgraph")) := by
    rw [validateNamespace_ok, allLabelOk_iff]
    constructor
    · rintro ⟨hne, hlab, hhd⟩ (h | h | h | h | h)
      · exact hne h
      · exact hlab (Or.inl h)
      · exact hlab (Or.inr (Or.inl h))
      · exact hlab (Or.inr (Or.inr h))
      · exact hhd h
    · intro hno
      refine ⟨fun h => hno (Or.inl h), fun h => ?_, fun h => hno (Or.inr (Or.inr (Or.inr (Or.inr h))))⟩
      rcases h with h | h | h
      · exact hno (Or.inr (Or.inl h))
      · exact hno (Or.inr (Or.inr (Or.inl h)))
      · exact hno (Or.inr (Or.inr (Or.inr (Or.inl h))))
  refine ⟨?_, hok⟩
  rcases hv : validateNamespace ns with e | u
  · simp only [Except.error.injEq, exists_eq']
    constructor
    · intro _
      by_contra hno
      have := hok.2 hno
      rw [hv] at this
      exact Except.noConfusion this
    · intro _
      trivial
  · cases u
    have hD := hok.1 hv
    constructor
    · rintro ⟨e, he⟩
      exact Except.noConfusion he
    · intro hd
      exact absurd hd hD

/-- The parameters of `AsyncPostgresStore.__init__` (aio.py lines 47-56),
which are the local names in scope when line 68
(`self.index_config = embedding`) executes — no other assignment precedes
it except attribute assignments on `self`. -/
def initParamNames : List String :=
  ["self", "conn", "pipe", "deserializer", "index"]

/-- The module-level names of aio.py (its imports, lines 1-33, plus
`logger` and the class itself), visible as globals inside `__init__`. -/
def aioModuleNames : List String :=
  ["asyncio", "logging", "AsyncIterator", "Iterable", "Sequence",
   "asynccontextmanager", "Any", "Callable", "Optional", "Union", "cast",
   "orjson", "AsyncConnection", "AsyncCursor", "AsyncPipeline",
   "Capabilities", "UndefinedTable", "DictRow", "dict_row",
   "AsyncConnectionPool", "_ainternal", "GetOp", "ListNamespacesOp", "Op",
   "PutOp", "Result", "SearchOp", "AsyncBatchedBaseStore",
   "BasePostgresStore", "PoolConfig", "PostgresEmbeddingConfig", "Row",
   "_decode_ns_bytes", "_ensure_index_config", "_group_ops", "_row_to_item",
   "_row_to_search_item", "logger", "AsyncPostgresStore"]

/-- Python name resolution inside `__init__`: a name resolves to a local or
a module-level global, otherwise reading it raises `NameError`. -/
def resolveInitName (n : String) : Except PyErr Unit :=
  if (initParamNames ++ aioModuleNames).contains n then .ok ()
  else .error (.nameError ("name '" ++ n ++ "' is not defined"))

/-- The kind of the `conn` argument. -/
inductive ConnArg where
  | single
  | pool
deriving DecidableEq, Repr

/-- The arguments of a direct `AsyncPostgresStore.__init__` call: the
booleans record whether the optional keyword arguments were passed
non-`None`. -/
structure InitArgs where
  conn : ConnArg
  pipe : Bool
  deserializer : Bool
  index : Bool
deriving DecidableEq, Repr

/-- `AsyncPostgresStore.__init__` (aio.py lines 47-76): the pool-with-pipe
guard raises `ValueError` (lines 57-60); every path past the guard reaches
line 68, `self.index_config = embedding`, whose right-hand side is a name
bound neither as a parameter/local nor at module level, so Python raises
`NameError` and the store is never initialized. -/
def asyncPostgresStoreInit (a : InitArgs) : Except PyErr Unit :=
  if a.conn = .pool ∧ a.pipe = true then
    .error (.valueError
      "Pipeline should be used only with a single AsyncConnection, not AsyncConnectionPool.")
  else
    match resolveInitName "embedding" with
    | .error e => .error e
    | .ok () => .ok ()

/-- The keyword names `AsyncPostgresStore.__init__` accepts: `conn`
(positional-or-keyword) and the keyword-only `pipe`, `deserializer`,
`index` (aio.py lines 47-56). -/
def initAcceptedKwargs : List String := ["conn", "pipe", "deserializer", "index"]

/-- Calling `cls(...)` with keyword arguments: Python raises `TypeError`
for the first keyword `__init__` does not accept, before the body runs. -/
def callInitKw (kwargs : List String) (a : InitArgs) : Except PyErr Unit :=
  match kwargs.find? (fun k => ! initAcceptedKwargs.contains k) with
  | some k =>
      .error (.typeError ("__init__() got an unexpected keyword argument '" ++ k ++ "'"))
  | none => asyncPostgresStoreInit a

/-- The arguments of `AsyncPostgresStore.from_conn_string` that steer its
branches (aio.py lines 93-142). -/
structure FromConnStringArgs where
  pipeline : Bool
  hasPoolConfig : Bool
  hasEmbedding : Bool
deriving DecidableEq, Repr

/-- `AsyncPostgresStore.from_conn_string` (aio.py lines 93-142): the pool
branch calls `cls(conn=pool, embedding=embedding)` (line 133), the pipeline
branch `cls(conn=conn, pipe=pipe, embedding=embedding)` (line 140), the
plain branch `cls(conn=conn, embedding=embedding)` (line 142) — each with
the keyword `embedding`, which `__init__` does not accept. -/
def fromConnString (a : FromConnStringArgs) : Except PyErr Unit :=
  if a.hasPoolConfig then
    callInitKw ["conn", "embedding"] ⟨.pool, false, false, a.hasEmbedding⟩
  else if a.pipeline then
    callInitKw ["conn", "pipe", "embedding"] ⟨.single, true, false, a.hasEmbedding⟩
  else
    callInitKw ["conn", "embedding"] ⟨.single, false, false, a.hasEmbedding⟩

/-- C3: every path through the public constructors fails before a usable
store exists — a direct `__init__` call raises `ValueError` on the
pool-with-pipe guard and otherwise reaches line 68 and raises `NameError`
for the undefined name `embedding`; and every branch of `from_conn_string`
raises `TypeError` because it passes the keyword `embedding`, which
`__init__` does not accept. -/
theorem constructors_never_yield_store (a : InitArgs) (f : FromConnStringArgs) :
    (∃ e, asyncPostgresStoreInit a = .error e) ∧
    (¬ (a.conn = .pool ∧ a.pipe = true) →
      asyncPostgresStoreInit a =
        .error (.nameError "name 'embedding' is not defined")) ∧
    fromConnString f =
      .error (.typeError "__init__() got an unexpected keyword argument 'embedding'") := by
  have hresolve : resolveInitName "embedding" =
      .error (.nameError "name 'embedding' is not defined") := by decide
  have hbody : ∀ b : InitArgs, ¬ (b.conn = .pool ∧ b.pipe = true) →
      asyncPostgresStoreInit b =
        .error (.nameError "name 'embedding' is not defined") := by
    intro b hb
    simp [asyncPostgresStoreInit, hb, hresolve]
  refine ⟨?_, hbody a, ?_⟩
  · by_cases hg : a.conn = .pool ∧ a.pipe = true
    · exact ⟨.valueError
        "Pipeline should be used only with a single AsyncConnection, not AsyncConnectionPool.",
        by simp [asyncPostgresStoreInit, hg]⟩
    · exact ⟨_, hbody a hg⟩
  · rcases f with ⟨p, pc, he⟩
    cases pc <;> cases p <;> rfl

/-- Modelled from the spec: a `MIGRATIONS` entry (`store/postgres/base.py`,
not among the sources) — §4.3: "Each entry is either a literal statement or
a structured entry with optional `condition(store) -> bool` (skipped when
false) and optional `params` mapping whose values may be callables
evaluated against the store."  The store is fixed for the lifetime of the
instance, so the condition and the params' callables are embedded already
evaluated. -/
inductive Migration where
  | plain (sql : String)
  | structured (sql : String) (condition : Option Bool)
      (params : Option (List (String × String)))
deriving DecidableEq, Repr

/-- The test `if migration.condition and not migration.condition(self):
continue` (aio.py line 177): only a structured entry whose condition is
present and false is skipped. -/
def Migration.condOk : Migration → Bool
  | .structured _ (some false) _ => false
  | _ => true

/-- The statement `setup` executes for an applied entry: the sql text, with
the `sql % params` interpolation (aio.py lines 181-186) carried as the
evaluated params alongside the text. -/
def Migration.stmt : Migration → String × Option (List (String × String))
  | .plain s => (s, none)
  | .structured s _ p => (s, p)

/-- The `store_migrations` table: `none` when the table does not yet exist,
otherwise the recorded versions.  Only loop indices are ever inserted, so
versions are naturals. -/
abbrev MigTable := Option (List Nat)

/-- `SELECT v FROM store_migrations ORDER BY v DESC LIMIT 1` with the
fallbacks of aio.py lines 151-169: -1 when the table is missing
(`UndefinedTable`, after which the table is created) or empty. -/
def migVersion : MigTable → Int
  | none => -1
  | some [] => -1
  | some (x :: xs) => ((xs.foldl max x : Nat) : Int)

/-- The migration loop of `setup` (aio.py lines 171-189) over
`enumerate(self.MIGRATIONS[version + 1:], start=version + 1)`: a skipped
entry is neither executed nor recorded; an applied entry's statement is
executed and its index inserted into `store_migrations`. -/
def applyMigs (migs : List Migration) (v : Nat) (recorded : List Nat)
    (execd : List (String × Option (List (String × String)))) :
    List Nat × List (String × Option (List (String × String))) :=
  match migs with
  | [] => (recorded, execd)
  | m :: rest =>
      if m.condOk then applyMigs rest (v + 1) (recorded ++ [v]) (execd ++ [m.stmt])
      else applyMigs rest (v + 1) recorded execd

/-- `AsyncPostgresStore.setup` (aio.py lines 144-189): read the highest
recorded version, then run the loop from `version + 1`.  Returns the table
contents after the run and the statements executed, in order. -/
def setupRun (migs : List Migration) (t : MigTable) :
    MigTable × List (String × Option (List (String × String))) :=
  let version := migVersion t
  let start : Nat := (version + 1).toNat
  let (recorded, execd) := applyMigs (migs.drop start) start (t.getD []) []
  (some recorded, execd)

lemma applyMigs_spec (migs : List Migration) (v : Nat) (recorded : List Nat)
    (execd : List (String × Option (List (String × String)))) :
    applyMigs migs v recorded execd =
      (recorded ++ ((migs.enumFrom v).filter (fun p => p.2.condOk)).map (fun p => p.1),
       execd ++ ((migs.enumFrom v).filter (fun p => p.2.condOk)).map (fun p => p.2.stmt)) := by
  induction migs generalizing v recorded execd with
  | nil => simp [applyMigs, List.enumFrom]
  | cons m rest ih =>
    by_cases hc : m.condOk
    · simp [applyMigs, hc, List.enumFrom, ih]
    · simp [applyMigs, hc, List.enumFrom, ih]

lemma le_foldl_max (xs : List Nat) (b : Nat) : b ≤ xs.foldl max b := by
  induction xs generalizing b with
  | nil => exact Nat.le_refl b
  | cons a t ih => exact Nat.le_trans (Nat.le_max_left b a) (ih (max b a))

lemma mem_le_foldl_max (xs : List Nat) (b y : Nat) (h : y = b ∨ y ∈ xs) :
    y ≤ xs.foldl max b := by
  induction xs generalizing b with
  | nil =>
      rcases h with h | h
      · exact h ▸ Nat.le_refl y
      · exact absurd h (List.not_mem_nil y)
  | cons a t ih =>
      rcases h with h | h
      · subst h
        exact Nat.le_trans (Nat.le_max_left y a) (le_foldl_max t _)
      · rcases List.mem_cons.1 h with h | h
        · subst h
          exact Nat.le_trans (Nat.le_max_right b y) (le_foldl_max t _)
        · exact ih (max b a) (Or.inr h)

lemma migVersion_ge (rec : List Nat) (i : Nat) (h : i ∈ rec) :
    (i : Int) ≤ migVersion (some rec) := by
  cases rec with
  | nil => exact absurd h (List.not_mem_nil i)
  | cons x xs =>
      have hle : i ≤ xs.foldl max x := by
        rcases List.mem_cons.1 h with h | h
        · exact mem_le_foldl_max xs x i (Or.inl h)
        · exact mem_le_foldl_max xs x i (Or.inr h)
      simp only [migVersion]
      exact_mod_cast hle

lemma migVersion_ge_neg_one (t : MigTable) : -1 ≤ migVersion t := by
  rcases t with _ | l
  · exact le_refl _
  · cases l with
    | nil => exact le_refl _
    | cons x xs =>
        simp only [migVersion]
        omega

lemma migVersion_mono (t : MigTable) (l2 : List Nat) :
    migVersion t ≤ migVersion (some (t.getD [] ++ l2)) := by
  rcases t with _ | l
  · simpa [migVersion] using migVersion_ge_neg_one (some l2)
  · cases l with
    | nil => simpa [migVersion] using migVersion_ge_neg_one (some l2)
    | cons x xs =>
        simp only [Option.getD, migVersion, List.cons_append]
        rw [List.foldl_append]
        exact_mod_cast le_foldl_max l2 (xs.foldl max x)

lemma mem_enumFrom_fst_ge (l : List α) (v : Nat) (p : Nat × α)
    (h : p ∈ l.enumFrom v) : v ≤ p.1 := by
  induction l generalizing v with
  | nil => exact absurd h (List.not_mem_nil p)
  | cons a t ih =>
      rcases List.mem_cons.1 h with h | h
      · subst h
        exact Nat.le_refl v
      · exact Nat.le_trans (Nat.le_succ v) (ih (v + 1) h)

lemma mem_enumFrom_get (l : List α) (v : Nat) (p : Nat × α)
    (h : p ∈ l.enumFrom v) : l.get? (p.1 - v) = some p.2 := by
  induction l generalizing v with
  | nil => exact absurd h (List.not_mem_nil p)
  | cons a t ih =>
      rcases List.mem_cons.1 h with h | h
      · subst h
        simp
      · have h1 : v + 1 ≤ p.1 := mem_enumFrom_fst_ge t (v + 1) p h
        have := ih (v + 1) h
        have harith : p.1 - v = (p.1 - (v + 1)) + 1 := by omega
        rw [harith]
        simpa using this

lemma get_mem_enumFrom (l : List α) (v j : Nat) (a : α)
    (h : l.get? j = some a) : (v + j, a) ∈ l.enumFrom v := by
  induction l generalizing v j with
  | nil => simp at h
  | cons x t ih =>
      cases j with
      | zero =>
          simp at h
          subst h
          simp [List.enumFrom]
      | succ j =>
          simp at h
          have h' : t.get? j = some a := by
            rw [List.get?_eq_getElem?]
            exact h
          have := ih (v + 1) j h'
          have harith : v + (j + 1) = (v + 1) + j := by omega
          rw [harith]
          exact List.mem_cons_of_mem _ this

/-- C6: a `setup` run applies exactly the migrations whose index exceeds
the recorded version and whose condition holds (recording each applied
index), and a second run immediately after executes no further migration
statements. -/
theorem setup_applies_tail_and_rerun_noop (migs : List Migration) (t : MigTable) :
    ((setupRun migs t).2 =
      (((migs.drop (migVersion t + 1).toNat).enumFrom (migVersion t + 1).toNat).filter
          (fun p => p.2.condOk)).map (fun p => p.2.stmt)) ∧
    ((setupRun migs t).1 =
      some (t.getD [] ++
        (((migs.drop (migVersion t + 1).toNat).enumFrom (migVersion t + 1).toNat).filter
            (fun p => p.2.condOk)).map (fun p => p.1))) ∧
    (setupRun migs (setupRun migs t).1).2 = [] := by
  have hrun : ∀ (u : MigTable), setupRun migs u =
      (some (u.getD [] ++
          (((migs.drop (migVersion u + 1).toNat).enumFrom (migVersion u + 1).toNat).filter
              (fun p => p.2.condOk)).map (fun p => p.1)),
       (((migs.drop (migVersion u + 1).toNat).enumFrom (migVersion u + 1).toNat).filter
            (fun p => p.2.condOk)).map (fun p => p.2.stmt)) := by
    intro u
    simp [setupRun, applyMigs_spec]
  refine ⟨by rw [hrun t], by rw [hrun t], ?_⟩
  -- Second run: show the filtered tail is empty.
  set s1 : Nat := (migVersion t + 1).toNat with hs1
  set A : List (Nat × Migration) :=
    ((migs.drop s1).enumFrom s1).filter (fun p => p.2.condOk) with hA
  set rec1 : List Nat := t.getD [] ++ A.map (fun p => p.1) with hrec1
  have ht1 : (setupRun migs t).1 = some rec1 := by rw [hrun t]
  rw [hrun (setupRun migs t).1, ht1]
  set v2 : Int := migVersion (some rec1) with hv2
  set s2 : Nat := (v2 + 1).toNat with hs2
  have hempty : ((migs.drop s2).enumFrom s2).filter (fun p => p.2.condOk) = [] := by
    rw [List.filter_eq_nil]
    rintro ⟨i, m⟩ hmem hcond
    -- i is an index past the new version; derive a contradiction.
    have hge2 : s2 ≤ i := mem_enumFrom_fst_ge _ _ _ hmem
    have hget : (migs.drop s2).get? (i - s2) = some m := mem_enumFrom_get _ _ _ hmem
    have hgetm : migs.get? i = some m := by
      rw [List.get?_drop] at hget
      have : s2 + (i - s2) = i := by omega
      rwa [this] at hget
    have hv2ge : migVersion t ≤ v2 := hv2 ▸ migVersion_mono t (A.map (fun p => p.1))
    have hv2ge1 : -1 ≤ migVersion t := migVersion_ge_neg_one t
    have hs1le : s1 ≤ s2 := by
      rw [hs1, hs2]
      omega
    have hge1 : s1 ≤ i := Nat.le_trans hs1le hge2
    -- so (i, m) is one of the pairs applied (and recorded) by the first run
    have hget1 : (migs.drop s1).get? (i - s1) = some m := by
      rw [List.get?_drop]
      have : s1 + (i - s1) = i := by omega
      rwa [this]
    have hmem1 : (i, m) ∈ (migs.drop s1).enumFrom s1 := by
      have := get_mem_enumFrom (migs.drop s1) s1 (i - s1) m hget1
      have harith : s1 + (i - s1) = i := by omega
      rwa [harith] at this
    have hmemA : (i, m) ∈ A := by
      rw [hA]
      exact List.mem_filter.2 ⟨hmem1, hcond⟩
    have hmemrec : i ∈ rec1 := by
      rw [hrec1]
      exact List.mem_append_right _ (List.mem_map.2 ⟨(i, m), hmemA, rfl⟩)
    have hle : (i : Int) ≤ v2 := hv2 ▸ migVersion_ge rec1 i hmemrec
    -- but i ≥ s2 = (v2 + 1).toNat and v2 ≥ -1 force i > v2
    have hv2m1 : -1 ≤ v2 := hv2 ▸ migVersion_ge_neg_one (some rec1)
    have : (s2 : Int) = v2 + 1 := by
      rw [hs2]
      omega
    omega
  rw [hempty]
  simp

variable [DecidableEq L]

/-- The `store` table (spec §6): one row per `(namespace, key)` with value
and timestamps; timestamps are logical times (`Nat`). -/
abbrev StoreDb (L : Type) := List (Item (PyDict L) Nat)

/-- The row at `(namespace, key)`, if any. -/
def dbLookup (db : StoreDb L) (ns : Nspace) (key : String) :
    Option (Item (PyDict L) Nat) :=
  db.find? (fun it => it.nspace == ns && it.key == key)

/-- Modelled from the spec: the net effect, for one get slot, of
`_batch_get_ops` (aio.py lines 228-246) with `_get_batch_GET_ops_queries`
(store/postgres/base.py, not among the sources) — §4.5: one statement per
namespace selects the requested keys, and the executor joins rows to
requests by key, so each slot receives the row at `(namespace, key)` or
`None`. -/
def getEval (db : StoreDb L) (op : GetOp) : BatchResult L :=
  match dbLookup db op.nspace op.key with
  | some it => .item it
  | none => .none

/-- Dict lookup by key. -/
def lookupDict (v : PyDict L) (k : String) : Option L :=
  (v.find? (fun kv => kv.1 == k)).map (fun kv => kv.2)

/-- Modelled from the spec: §4.5 — "The `filter` mapping compiles to JSON
containment predicates on `value`": every filter pair must be present in
the value dict. -/
def filterMatch (filter : Option (PyDict L)) (v : PyDict L) : Bool :=
  match filter with
  | none => true
  | some f => f.all (fun kv => lookupDict v kv.1 == some kv.2)

/-- Insertion step of a stable sort by a boolean order. -/
def insertSorted {α : Type} (le : α → α → Bool) (x : α) : List α → List α
  | [] => [x]
  | y :: ys => if le x y then x :: y :: ys else y :: insertSorted le x ys

/-- Insertion sort by a boolean order. -/
def sortByBool {α : Type} (le : α → α → Bool) (l : List α) : List α :=
  l.foldr (insertSorted le) []

/-- The no-query search order of §4.5: `updated_at DESC, key ASC`. -/
def searchLe (a b : Item (PyDict L) Nat) : Bool :=
  if a.updatedAt = b.updatedAt then decide (a.key ≤ b.key)
  else decide (b.updatedAt < a.updatedAt)

/-- Modelled from the spec: the Search plan of §4.5 with
`_prepare_batch_search_queries` not among the sources.  Candidates are the
rows whose namespace extends the prefix and whose value satisfies the
filter.  Without a query (or without a configured embedder, in which case
the dispatched statement carries no query vector) the scan is ordered by
`updated_at DESC, key ASC`; with a query and an embedder the rows are
ranked by the abstract distance `dist` (standing for the embedding +
cosine-distance pipeline, per-item vector minimum included) and scored
`1 - distance`.  `offset` rows are skipped, then `limit` rows taken. -/
def searchEval (dist : Option (String → PyDict L → Int)) (db : StoreDb L)
    (op : SearchOp L) : List (SearchItem L) :=
  let cands := db.filter (fun it =>
    op.namespacePrefix.isPrefixOf it.nspace && filterMatch op.filter it.value)
  match op.query, dist with
  | some q, some d =>
      let ranked := sortByBool (fun a b => decide (d q a.value ≤ d q b.value)) cands
      ((ranked.map (fun it => ⟨it, some (1 - d q it.value)⟩)).drop op.offset).take op.limit
  | _, _ =>
      (((sortByBool searchLe cands).map (fun it => ⟨it, none⟩)).drop op.offset).take op.limit

/-- Whether a match condition accepts a namespace: a `"prefix"` condition
anchors at the start, a `"suffix"` condition at the end, and a `"*"` path
label matches exactly one namespace label (spec §4.5, ListNamespaces
plan). -/
def condMatches (c : MatchCondition) (ns : Nspace) : Bool :=
  if c.matchType == "prefix" then
    decide (c.path.length ≤ ns.length) &&
      ((ns.take c.path.length).zip c.path).all (fun p => p.2 == "*" || p.1 == p.2)
  else if c.matchType == "suffix" then
    decide (c.path.length ≤ ns.length) &&
      ((ns.drop (ns.length - c.path.length)).zip c.path).all
        (fun p => p.2 == "*" || p.1 == p.2)
  else true

/-- Lexicographic order on namespaces (the sort of the ListNamespaces
plan). -/
def nsLexLe : Nspace → Nspace → Bool
  | [], _ => true
  | _ :: _, [] => false
  | x :: xs, y :: ys => if x = y then nsLexLe xs ys else decide (x < y)

/-- Modelled from the spec: the ListNamespaces plan of §4.5 with
`_get_batch_list_namespaces_queries` not among the sources — select the
distinct namespace prefixes truncated to `max_depth` among the rows
accepted by every match condition, sorted lexicographically, then
paginated. -/
def listNamespacesEval (db : StoreDb L) (op : ListNamespacesOp) : List Nspace :=
  let conds := op.matchConditions.getD []
  let filtered := (db.map (fun it => it.nspace)).filter
    (fun ns => conds.all (fun c => condMatches c ns))
  let truncated := filtered.map (fun ns =>
    match op.maxDepth with
    | some d => ns.take d
    | none => ns)
  ((sortByBool nsLexLe truncated.eraseDups).drop op.offset).take op.limit

/-- Modelled from the spec: §4.5 Put plan — "Ops with the same
`(namespace, key)` collapse to the last occurrence (later-in-batch
wins)". -/
def dedupePuts (ops : List (PutOp L)) : List (PutOp L) :=
  match ops with
  | [] => []
  | op :: rest =>
      if rest.any (fun o => o.nspace == op.nspace && o.key == op.key) then
        dedupePuts rest
      else op :: dedupePuts rest

/-- Modelled from the spec: the effect of one planned put — a `None` value
deletes the row (`DELETE ... key = ANY(...)`); otherwise
`INSERT ... ON CONFLICT (namespace, key) DO UPDATE SET value=EXCLUDED.value,
updated_at=now()`, preserving `created_at` of an existing row. -/
def applyPut (now : Nat) (db : StoreDb L) (op : PutOp L) : StoreDb L :=
  match op.value with
  | none => db.filter (fun it => ! (it.nspace == op.nspace && it.key == op.key))
  | some v =>
      if db.any (fun it => it.nspace == op.nspace && it.key == op.key) then
        db.map (fun it =>
          if it.nspace == op.nspace && it.key == op.key then
            { it with value := v, updatedAt := now }
          else it)
      else db ++ [⟨v, op.key, op.nspace, now, now⟩]

/-- `_batch_put_ops` dispatches the planned statements (aio.py lines
277-278); their net effect on the table is the collapsed puts applied in
order at statement time `now`. -/
def runPutOps (now : Nat) (db : StoreDb L) (puts : List (Nat × PutOp L)) :
    StoreDb L :=
  (dedupePuts (puts.map (fun p => p.2))).foldl (applyPut now) db

/-- The grouped operations: `(index, op)` pairs per kind, input order
preserved. -/
structure GroupedOps (L : Type) where
  getOps : List (Nat × GetOp)
  searchOps : List (Nat × SearchOp L)
  listOps : List (Nat × ListNamespacesOp)
  putOps : List (Nat × PutOp L)

/-- Modelled from the spec: `_group_ops` (store/postgres/base.py, not among
the sources) — §4.4: "group(ops) returns (by_kind:
mapping<Kind, list<(index, op)>>, total: int)", input order preserved
within each group.  `groupOpsFrom i` groups a suffix whose first element
has input index `i`. -/
def groupOpsFrom (i : Nat) : List (Op L) → GroupedOps L
  | [] => ⟨[], [], [], []⟩
  | op :: rest =>
    let g := groupOpsFrom (i + 1) rest
    match op with
    | .get o => { g with getOps := (i, o) :: g.getOps }
    | .search o => { g with searchOps := (i, o) :: g.searchOps }
    | .listNamespaces o => { g with listOps := (i, o) :: g.listOps }
    | .put o => { g with putOps := (i, o) :: g.putOps }

/-- `_group_ops(ops)` with the total count. -/
def groupOps (ops : List (Op L)) : GroupedOps L × Nat :=
  (groupOpsFrom 0 ops, ops.length)

/-- The result-write loop shared by the read handlers:
`results[idx] = <decoded reply>` for each `(idx, op)` pair. -/
def fillResults {α : Type} (f : α → BatchResult L) (pairs : List (Nat × α))
    (results : List (BatchResult L)) : List (BatchResult L) :=
  pairs.foldl (fun rs p => rs.set p.1 (f p.2)) results

/-- `_batch_get_ops` (aio.py lines 228-246): fill each get's slot from the
database snapshot. -/
def batchGetOps (db : StoreDb L) (pairs : List (Nat × GetOp))
    (results : List (BatchResult L)) : List (BatchResult L) :=
  fillResults (getEval db) pairs results

/-- `_batch_search_ops` (aio.py lines 280-304): fill each search's slot with
its list of `SearchItem`s from the database snapshot. -/
def batchSearchOpsRun (dist : Option (String → PyDict L → Int))
    (db : StoreDb L) (pairs : List (Nat × SearchOp L))
    (results : List (BatchResult L)) : List (BatchResult L) :=
  fillResults (fun op => .searchItems (searchEval dist db op)) pairs results

/-- `_batch_list_namespaces_ops` (aio.py lines 306-317): fill each slot with
its namespace list. -/
def batchListNamespacesOps (db : StoreDb L)
    (pairs : List (Nat × ListNamespacesOp))
    (results : List (BatchResult L)) : List (BatchResult L) :=
  fillResults (fun op => .namespaces (listNamespacesEval db op)) pairs results

/-- `_execute_batch` (aio.py lines 191-226): the groups are dispatched in
the fixed kind order Get → Search → ListNamespaces → Put; only the put
group changes the database state, and it runs last. -/
def executeBatch (dist : Option (String → PyDict L → Int)) (now : Nat)
    (g : GroupedOps L) (results : List (BatchResult L)) (db : StoreDb L) :
    List (BatchResult L) × StoreDb L :=
  let r1 := batchGetOps db g.getOps results
  let r2 := batchSearchOpsRun dist db g.searchOps r1
  let r3 := batchListNamespacesOps db g.listOps r2
  (r3, runPutOps now db g.putOps)

/-- `abatch` (aio.py lines 77-88): group the ops, allocate
`results = [None] * num_ops`, and execute the batch. -/
def abatchModel (dist : Option (String → PyDict L → Int)) (now : Nat)
    (db : StoreDb L) (ops : List (Op L)) :
    List (BatchResult L) × StoreDb L :=
  let gn := groupOps ops
  executeBatch dist now gn.1 (List.replicate gn.2 .none) db

/-- The reply one operation receives, evaluated against a fixed database
snapshot: an item or `None` for a get, a `SearchItem` list for a search, a
namespace list for a list-namespaces, `None` for a put. -/
def evalOp (dist : Option (String → PyDict L → Int)) (db : StoreDb L) :
    Op L → BatchResult L
  | .get op => getEval db op
  | .search op => .searchItems (searchEval dist db op)
  | .listNamespaces op => .namespaces (listNamespacesEval db op)
  | .put _ => .none

/-- Reference evaluation order for the proofs: the read phases of the
executor, walked in input order instead of group order. -/
def scatterEval (dist : Option (String → PyDict L → Int)) (db : StoreDb L) :
    Nat → List (Op L) → List (BatchResult L) → List (BatchResult L)
  | _, [], results => results
  | i, .get o :: rest, results =>
      scatterEval dist db (i + 1) rest (results.set i (getEval db o))
  | i, .search o :: rest, results =>
      scatterEval dist db (i + 1) rest
        (results.set i (.searchItems (searchEval dist db o)))
  | i, .listNamespaces o :: rest, results =>
      scatterEval dist db (i + 1) rest
        (results.set i (.namespaces (listNamespacesEval db o)))
  | i, .put _ :: rest, results => scatterEval dist db (i + 1) rest results

lemma fillResults_cons {α : Type} (f : α → BatchResult L) (p : Nat × α)
    (ps : List (Nat × α)) (results : List (BatchResult L)) :
    fillResults f (p :: ps) results = fillResults f ps (results.set p.1 (f p.2)) :=
  rfl

lemma groupOpsFrom_ge (i : Nat) (ops : List (Op L)) :
    (∀ p ∈ (groupOpsFrom i ops).getOps, i ≤ p.1) ∧
    (∀ p ∈ (groupOpsFrom i ops).searchOps, i ≤ p.1) ∧
    (∀ p ∈ (groupOpsFrom i ops).listOps, i ≤ p.1) ∧
    (∀ p ∈ (groupOpsFrom i ops).putOps, i ≤ p.1) := by
  induction ops generalizing i with
  | nil => simp [groupOpsFrom]
  | cons op rest ih =>
    obtain ⟨ih1, ih2, ih3, ih4⟩ := ih (i + 1)
    have w1 : ∀ p ∈ (groupOpsFrom (i + 1) rest).getOps, i ≤ p.1 :=
      fun p hp => Nat.le_of_succ_le (ih1 p hp)
    have w2 : ∀ p ∈ (groupOpsFrom (i + 1) rest).searchOps, i ≤ p.1 :=
      fun p hp => Nat.le_of_succ_le (ih2 p hp)
    have w3 : ∀ p ∈ (groupOpsFrom (i + 1) rest).listOps, i ≤ p.1 :=
      fun p hp => Nat.le_of_succ_le (ih3 p hp)
    have w4 : ∀ p ∈ (groupOpsFrom (i + 1) rest).putOps, i ≤ p.1 :=
      fun p hp => Nat.le_of_succ_le (ih4 p hp)
    cases op with
    | get o =>
        refine ⟨?_, w2, w3, w4⟩
        intro p hp
        rcases List.mem_cons.1 hp with h | h
        · subst h
          exact Nat.le_refl i
        · exact w1 p h
    | search o =>
        refine ⟨w1, ?_, w3, w4⟩
        intro p hp
        rcases List.mem_cons.1 hp with h | h
        · subst h
          exact Nat.le_refl i
        · exact w2 p h
    | listNamespaces o =>
        refine ⟨w1, w2, ?_, w4⟩
        intro p hp
        rcases List.mem_cons.1 hp with h | h
        · subst h
          exact Nat.le_refl i
        · exact w3 p h
    | put o =>
        refine ⟨w1, w2, w3, ?_⟩
        intro p hp
        rcases List.mem_cons.1 hp with h | h
        · subst h
          exact Nat.le_refl i
        · exact w4 p h

lemma fillResults_set_comm {α : Type} (f : α → BatchResult L)
    (pairs : List (Nat × α)) (j : Nat) (x : BatchResult L)
    (results : List (BatchResult L)) (h : ∀ p ∈ pairs, p.1 ≠ j) :
    fillResults f pairs (results.set j x) =
      (fillResults f pairs results).set j x := by
  induction pairs generalizing results with
  | nil => rfl
  | cons p ps ih =>
      rw [fillResults_cons, fillResults_cons]
      have hj : j ≠ p.1 := (h p (List.mem_cons_self _ _)).symm
      rw [List.set_comm x (f p.2) results hj]
      exact ih _ (fun q hq => h q (List.mem_cons_of_mem _ hq))

lemma readPhases_eq_scatter (dist : Option (String → PyDict L → Int))
    (db : StoreDb L) (ops : List (Op L)) (i : Nat)
    (results : List (BatchResult L)) :
    batchListNamespacesOps db (groupOpsFrom i ops).listOps
      (batchSearchOpsRun dist db (groupOpsFrom i ops).searchOps
        (batchGetOps db (groupOpsFrom i ops).getOps results)) =
    scatterEval dist db i ops results := by
  induction ops generalizing i results with
  | nil => rfl
  | cons op rest ih =>
    obtain ⟨hg, hs, hl, _⟩ := groupOpsFrom_ge (i + 1) rest
    have hgne : ∀ p ∈ (groupOpsFrom (i + 1) rest).getOps, p.1 ≠ i :=
      fun p hp he => absurd (he ▸ hg p hp) (Nat.not_succ_le_self i)
    have hsne : ∀ p ∈ (groupOpsFrom (i + 1) rest).searchOps, p.1 ≠ i :=
      fun p hp he => absurd (he ▸ hs p hp) (Nat.not_succ_le_self i)
    cases op with
    | get o =>
        simp only [groupOpsFrom, scatterEval, batchGetOps, fillResults_cons]
        exact ih (i + 1) (results.set i (getEval db o))
    | search o =>
        simp only [groupOpsFrom, scatterEval, batchGetOps, batchSearchOpsRun,
          fillResults_cons]
        rw [← fillResults_set_comm (getEval db) (groupOpsFrom (i + 1) rest).getOps
          i (.searchItems (searchEval dist db o)) results hgne]
        exact ih (i + 1) _
    | listNamespaces o =>
        simp only [groupOpsFrom, scatterEval, batchGetOps, batchSearchOpsRun,
          batchListNamespacesOps, fillResults_cons]
        rw [← fillResults_set_comm
          (fun op => BatchResult.searchItems (searchEval dist db op))
          (groupOpsFrom (i + 1) rest).searchOps
          i (.namespaces (listNamespacesEval db o)) _ hsne]
        rw [← fillResults_set_comm (getEval db) (groupOpsFrom (i + 1) rest).getOps
          i (.namespaces (listNamespacesEval db o)) results hgne]
        exact ih (i + 1) _
    | put o =>
        simp only [groupOpsFrom, scatterEval]
        exact ih (i + 1) results

lemma set_append_cons {γ : Type} (pre : List γ) (y v : γ) (tail : List γ) :
    (pre ++ y :: tail).set pre.length v = pre ++ v :: tail := by
  induction pre with
  | nil => rfl
  | cons a t ih =>
      show a :: ((t ++ y :: tail).set t.length v) = a :: (t ++ v :: tail)
      rw [ih]

lemma scatterEval_map (dist : Option (String → PyDict L → Int))
    (db : StoreDb L) (ops : List (Op L)) (pre : List (BatchResult L)) :
    scatterEval dist db pre.length ops
        (pre ++ List.replicate ops.length .none) =
      pre ++ ops.map (evalOp dist db) := by
  induction ops generalizing pre with
  | nil => simp [scatterEval]
  | cons op rest ih =>
    have hstep : ∀ (v : BatchResult L),
        scatterEval dist db (pre.length + 1) rest
            ((pre ++ [v]) ++ List.replicate rest.length .none) =
          pre ++ v :: rest.map (evalOp dist db) := by
      intro v
      have := ih (pre ++ [v])
      simp only [List.length_append, List.length_cons, List.length_nil,
        List.append_assoc, List.cons_append, List.nil_append] at this
      simpa using this
    cases op with
    | get o =>
        simp only [List.length_cons, List.replicate_succ, scatterEval,
          set_append_cons]
        have := hstep (getEval db o)
        simp only [List.append_assoc, List.cons_append, List.nil_append] at this
        rw [this]
        rfl
    | search o =>
        simp only [List.length_cons, List.replicate_succ, scatterEval,
          set_append_cons]
        have := hstep (.searchItems (searchEval dist db o))
        simp only [List.append_assoc, List.cons_append, List.nil_append] at this
        rw [this]
        rfl
    | listNamespaces o =>
        simp only [List.length_cons, List.replicate_succ, scatterEval,
          set_append_cons]
        have := hstep (.namespaces (listNamespacesEval db o))
        simp only [List.append_assoc, List.cons_append, List.nil_append] at this
        rw [this]
        rfl
    | put o =>
        simp only [List.length_cons, List.replicate_succ, scatterEval]
        have := hstep .none
        simp only [List.append_assoc, List.cons_append, List.nil_append] at this
        rw [this]
        rfl

lemma abatch_fst_eq_map (dist : Option (String → PyDict L → Int)) (now : Nat)
    (db : StoreDb L) (ops : List (Op L)) :
    (abatchModel dist now db ops).1 = ops.map (evalOp dist db) := by
  have h1 := readPhases_eq_scatter dist db ops 0
    (List.replicate ops.length (BatchResult.none))
  have h2 := scatterEval_map dist db ops []
  simp only [List.length_nil, List.nil_append] at h2
  calc (abatchModel dist now db ops).1
      = batchListNamespacesOps db (groupOpsFrom 0 ops).listOps
          (batchSearchOpsRun dist db (groupOpsFrom 0 ops).searchOps
            (batchGetOps db (groupOpsFrom 0 ops).getOps
              (List.replicate ops.length .none))) := rfl
    _ = scatterEval dist db 0 ops (List.replicate ops.length .none) := h1
    _ = ops.map (evalOp dist db) := h2

/-- C1: `abatch(ops)` returns one result per operation, and slot `i` is the
reply to `ops[i]` evaluated against the pre-batch snapshot — an item or
`None` for a get, a `SearchItem` list for a search, a namespace list for a
list-namespaces, `None` for a put — for every interleaving of kinds in the
input. -/
theorem abatch_results_align (dist : Option (String → PyDict L → Int))
    (now : Nat) (db : StoreDb L) (ops : List (Op L)) :
    (abatchModel dist now db ops).1.length = ops.length ∧
    (abatchModel dist now db ops).1 = ops.map (evalOp dist db) := by
  have h := abatch_fst_eq_map dist now db ops
  exact ⟨by rw [h, List.length_map], h⟩

/-- C2: the executor dispatches groups in the fixed order Get → Search →
ListNamespaces → Put (`executeBatch`, from aio.py lines 191-226), so every
get and search slot reflects the database state before any put of the same
batch; in particular `batch([Put(ns,k,v1), Get(ns,k), Put(ns,k,v2)])`
returns the pre-batch row (or `None`) in the get slot. -/
theorem batch_reads_see_prebatch (dist : Option (String → PyDict L → Int))
    (now : Nat) (db : StoreDb L) (ops : List (Op L)) (i : Nat) :
    (∀ o : GetOp, ops[i]? = some (.get o) →
      (abatchModel dist now db ops).1[i]? = some (getEval db o)) ∧
    (∀ o : SearchOp L, ops[i]? = some (.search o) →
      (abatchModel dist now db ops).1[i]? =
        some (.searchItems (searchEval dist db o))) ∧
    (∀ (ns : Nspace) (k : String) (v1 v2 : PyDict L),
      (abatchModel dist now db
          [.put ⟨ns, k, some v1, .unset⟩, .get ⟨ns, k⟩,
            .put ⟨ns, k, some v2, .unset⟩]).1 =
        [.none, getEval db ⟨ns, k⟩, .none]) := by
  refine ⟨?_, ?_, ?_⟩
  · intro o ho
    rw [abatch_fst_eq_map, List.getElem?_map, ho]
    rfl
  · intro o ho
    rw [abatch_fst_eq_map, List.getElem?_map, ho]
    rfl
  · intro ns k v1 v2
    rw [abatch_fst_eq_map]
    rfl

/-- An embedding vector; components kept abstract as integers. -/
abbrev Vec := List Int

/-- The embedder capability `aembed_documents` (spec §4.2), embedded as a
pure function. -/
structure Embedder where
  aembedDocuments : List String → List Vec

/-- A SQL statement parameter: a text or an embedding vector. -/
inductive QueryParam where
  | s (v : String)
  | vec (v : Vec)
deriving DecidableEq, Repr

/-- A planned statement with its parameters. -/
abbrev SqlQuery := String × List QueryParam

/-- One row of a put embedding request:
`(namespace, key, pathname, text)` (aio.py lines 262-274). -/
structure TxtParam where
  ns : String
  key : String
  pathname : String
  text : String
deriving DecidableEq, Repr

/-- `_batch_put_ops` (aio.py lines 247-278), taken at the boundary of the
prepared plan (`_prepare_batch_PUT_queries` is in store/postgres/base.py,
not among the sources): when an embedding request is present and
`self.embeddings is None`, raise `ValueError`; otherwise embed the texts,
append the vector upsert statement with the flattened
`(ns, key, pathname, vector)` parameters, and dispatch every query.
Returns the statements dispatched. -/
def batchPutOps (embeddings : Option Embedder) (queries : List SqlQuery)
    (embeddingRequest : Option (String × List TxtParam)) :
    Except PyErr (List SqlQuery) :=
  match embeddingRequest with
  | none => .ok queries
  | some (q, txtParams) =>
    match embeddings with
    | none =>
        .error (.valueError
          "Embedding configuration is required for vector operations (for semantic search). Please provide an EmbeddingConfig when initializing the AsyncPostgresStore.")
    | some emb =>
        let vectors := emb.aembedDocuments (txtParams.map (fun p => p.text))
        .ok (queries ++
          [(q, ((txtParams.zip vectors).map (fun pv =>
            [QueryParam.s pv.1.ns, QueryParam.s pv.1.key,
              QueryParam.s pv.1.pathname, QueryParam.vec pv.2])).join)])

/-- `queries[idx][1][0] = vector` (aio.py line 293). -/
def setQueryVector (qs : List SqlQuery) (idx : Nat) (v : Vec) :
    List SqlQuery :=
  match qs[idx]? with
  | some q => qs.set idx (q.1, q.2.set 0 (.vec v))
  | none => qs

/-- `_batch_search_ops` (aio.py lines 280-304), control flow at the boundary
of `_prepare_batch_search_queries`: query vectors are spliced into the
planned statements only when `embedding_requests` is non-empty AND
`self.embeddings` is set (line 288); in every case each statement is then
dispatched — the function has no error path.  Returns the statements
dispatched. -/
def batchSearchDispatch (embeddings : Option Embedder)
    (queries : List SqlQuery) (embeddingRequests : List (Nat × String)) :
    Except PyErr (List SqlQuery) :=
  match embeddings with
  | some emb =>
      if embeddingRequests.isEmpty then .ok queries
      else
        let vectors := emb.aembedDocuments (embeddingRequests.map (fun r => r.2))
        .ok ((embeddingRequests.zip vectors).foldl
          (fun qs rv => setQueryVector qs rv.1.1 rv.2) queries)
  | none => .ok queries

/-- C7 counterexample: a search whose plan carries an embedding request,
executed on a store with no embedder configured, does not raise — the
statement is dispatched unchanged, its placeholder parameter never replaced
by a query vector. -/
theorem batchSearch_no_embedder_dispatches_silently :
    batchSearchDispatch none
        [("SELECT prefix, key FROM store ORDER BY embedding <=> %s",
          [QueryParam.s "_PLACEHOLDER_"])] [(0, "find my notes")] =
      .ok [("SELECT prefix, key FROM store ORDER BY embedding <=> %s",
          [QueryParam.s "_PLACEHOLDER_"])] := rfl

/-- C7 (amended): when no embedder is configured, a put whose plan carries
an embedding request raises `ValueError` and dispatches nothing, while a
search whose plan carries embedding requests raises nothing — its
statements are dispatched without query vectors. -/
theorem missing_embedder_put_raises_search_does_not
    (queries : List SqlQuery) (q : String) (txtParams : List TxtParam)
    (reqs : List (Nat × String)) :
    batchPutOps none queries (some (q, txtParams)) =
      .error (.valueError
        "Embedding configuration is required for vector operations (for semantic search). Please provide an EmbeddingConfig when initializing the AsyncPostgresStore.") ∧
    batchSearchDispatch none queries reqs = .ok queries :=
  ⟨rfl, rfl⟩

end LGStore
